import Mathlib

/-!
# Verification of the pyzinc header parser and type-coercion pipeline

Shallow embedding of `src/pyzinc/pyzinc.py`: the column tokenizer
(`_tokenize_column`), header splitter (`_split_columns`), metadata
normalizer and numeric-tag pass (`_parse_zinc_header`), the type
coercion engine (`_sanitize_zinc_series`), the whole-payload entry
point (`zinc_to_frame`), and the Python attribute semantics of the
`ZincDataFrame` / `ZincSeries` container classes.

External collaborators (pandas CSV reader, float parser, timestamp
parser, categorical dtype) are modelled by simple executable stand-ins,
documented at each definition; every function of the repository itself
is translated statement-by-statement from the source.

Machine floats are modelled as exact rationals: the properties at stake
are which strings parse and what decimal value they denote, never
rounding behavior.
-/

namespace Pyzinc

/-- An exact decimal number `num / 10 ^ exp`, the output of the decimal
float parser.  Machine floats are modelled exactly: the properties at
stake are which strings parse and which decimal value they denote,
never rounding.  `Dec.toRat` gives the denoted rational. -/
structure Dec where
  num : Int
  exp : Nat
  deriving DecidableEq, Repr

/-- Rational value denoted by an exact decimal. -/
def Dec.toRat (d : Dec) : ℚ := d.num / 10 ^ d.exp

/-- The normalized value of a header tag: the tagged union
`{Marker, string, float, RefValue}` of the data model.  Floats are
modelled as exact decimals. -/
inductive TagValue where
  | marker : TagValue
  | str (s : String) : TagValue
  | num (q : Dec) : TagValue
  | ref (id : String) (dis : String) : TagValue
  deriving DecidableEq, Repr

/-- Per-column metadata: an insertion-ordered mapping from tag name to
`TagValue`, modelled as an association list (Python `dict` semantics:
assigning an existing key keeps its position). -/
abbrev ColInfo := List (String × TagValue)

/-- Error kinds raised by the parsing pipeline after the initial
segment check: Python builtin exceptions plus the two
`ZincParseException` messages other than "Malformed input". -/
inductive StageErr where
  | keyError (k : String) : StageErr
  | indexError : StageErr
  | assertionError : StageErr
  | valueError : StageErr
  | typeError : StageErr
  | attributeError : StageErr
  | emptyDataError : StageErr
  | unrecognizedKind (k : TagValue) : StageErr
  deriving DecidableEq, Repr

instance {ε α : Type _} [DecidableEq ε] [DecidableEq α] :
    DecidableEq (Except ε α)
  | Except.ok a, Except.ok b =>
      if h : a = b then isTrue (by rw [h])
      else isFalse (fun hh => by cases hh; exact h rfl)
  | Except.ok _, Except.error _ => isFalse (fun hh => by cases hh)
  | Except.error _, Except.ok _ => isFalse (fun hh => by cases hh)
  | Except.error e, Except.error e' =>
      if h : e = e' then isTrue (by rw [h])
      else isFalse (fun hh => by cases hh; exact h rfl)

/-- `d.get(k)` / `k in d` on a dict modelled as an association list:
first binding of `k`. -/
def lookupTag {α : Type _} (info : List (String × α)) (k : String) :
    Option α :=
  (info.find? (fun p => p.1 == k)).map (·.2)

/-- `d[k] = v` on a dict: replace the value at the first binding of
`k`, keeping its position; append when absent. -/
def updateAssoc {α : Type _} (info : List (String × α)) (k : String)
    (v : α) : List (String × α) :=
  match info with
  | [] => [(k, v)]
  | (k', v') :: rest =>
      if k' == k then (k', v) :: rest else (k', v') :: updateAssoc rest k v

/-- Python `x == "lit"` where `x` is a stored tag value: true only for
an equal string (comparing `MARKER` or a ref tuple to a string is
`False`). -/
def tagEqStr : TagValue → String → Bool
  | .str s, t => s == t
  | _, _ => false

/-- Python `s.rstrip(chars)`: remove from the right every trailing
character that occurs in `chars` (a character *set*, not a suffix). -/
def rstripChars (s : String) (chars : String) : String :=
  ⟨(s.data.reverse.dropWhile (fun c => chars.data.contains c)).reverse⟩

/-- Python `s.strip(chars)`: remove leading and trailing characters
occurring in `chars` from both ends. -/
def stripChars (s : String) (chars : String) : String :=
  ⟨((s.data.dropWhile (fun c => chars.data.contains c)).reverse.dropWhile
      (fun c => chars.data.contains c)).reverse⟩

/-- Python `s.rstrip()` (no argument): strip trailing whitespace. -/
def rstripWhitespace (s : String) : String :=
  ⟨(s.data.reverse.dropWhile (fun c => " \t\n\r\x0b\x0c".data.contains c)).reverse⟩

/-- Python `s.endswith(suffix)`. -/
def endsWithStr (s suffix : String) : Bool :=
  suffix.data.isSuffixOf s.data

/-- Numeral value of a digit string. -/
def natOfDigits (ds : List Char) : Nat :=
  ds.foldl (fun a c => 10 * a + (c.toNat - 48)) 0

/-- Apply a sign to a natural numeral. -/
def applySign (neg : Bool) (n : Nat) : Int :=
  if neg then -(n : Int) else (n : Int)

/-- Model of the external floating-point string parser (`float(...)` /
`pd.to_numeric`, an external collaborator): an optional sign followed
by a plain decimal literal with at least one digit, denoting an exact
decimal. -/
def parseFloatChars : List Char → Option Dec := fun cs =>
  let (neg, cs₁) :=
    match cs with
    | '-' :: rest => (true, rest)
    | '+' :: rest => (false, rest)
    | _ => (false, cs)
  let intPart := cs₁.takeWhile Char.isDigit
  let rest := cs₁.dropWhile Char.isDigit
  match rest with
  | [] =>
      if intPart.isEmpty then none
      else some ⟨applySign neg (natOfDigits intPart), 0⟩
  | '.' :: frac =>
      if frac.all Char.isDigit && !(intPart.isEmpty && frac.isEmpty) then
        some ⟨applySign neg (natOfDigits (intPart ++ frac)), frac.length⟩
      else none
  | _ => none

/-- `float(s)` / elementwise `pd.to_numeric` on one string. -/
def parseFloat? (s : String) : Option Dec :=
  parseFloatChars s.data

/-- `pd.to_numeric(series)` on a column of optional strings: nulls pass
through, any unparseable string raises (`ValueError`). -/
def toNumericCells : List (Option String) → Except StageErr (List (Option Dec))
  | [] => Except.ok []
  | none :: rest => (toNumericCells rest).map (none :: ·)
  | some s :: rest =>
      match parseFloat? s with
      | some q => (toNumericCells rest).map (some q :: ·)
      | none => Except.error .valueError

/-- A typed column as produced by the Type Coercion Engine: numeric,
plain string, or categorical (ordered category list plus cells, cells
outside the category set replaced by missing). -/
inductive TypedColumn where
  | nums (xs : List (Option Dec)) : TypedColumn
  | strs (xs : List (Option String)) : TypedColumn
  | cat (categories : List String) (xs : List (Option String)) : TypedColumn
  deriving DecidableEq, Repr

/-- Python `s.split(sep)` for a one-character separator, over char
lists: `""` splits to `[""]`, separators delimit possibly empty
pieces. -/
def splitCharsOn (sep : Char) : List Char → List (List Char)
  | [] => [[]]
  | c :: rest =>
      if c == sep then [] :: splitCharsOn sep rest
      else
        match splitCharsOn sep rest with
        | [] => [[c]]
        | g :: gs => (c :: g) :: gs

/-- Python `s.split(",")`. -/
def splitCommaStr (s : String) : List String :=
  (splitCharsOn ',' s.data).map (⟨·⟩)

/-- `NUMERIC_UNIT_SUFFIXES` from the source. -/
def NUMERIC_UNIT_SUFFIXES : List String := ["°F", "°C", "%", "cfm", "kW"]

/-- `NUMERIC_TAGS` from the source. -/
def NUMERIC_TAGS : List String := ["curVal", "precision", "writeLevel", "writeVal"]

/-- `series.astype(CategoricalDtype(categories=cats))`: cells equal to
a category are kept, others (nulls included) become missing. -/
def astypeCat (cats : List String) (cells : List (Option String)) :
    List (Option String) :=
  cells.map fun c => c.bind fun s => if cats.contains s then some s else none

/-- `_sanitize_zinc_series` translated line by line.  Cells are the raw
string column (`none` = the row reader's null).  `CategoricalDtype`
rejects duplicate categories with `ValueError`; `series[0]` on an empty
column raises `KeyError`; calling `.endswith` on a null first cell
raises `AttributeError`; `.str.rstrip`/`.split` with a non-string tag
value raise `TypeError`/`AttributeError`. -/
def sanitizeZincSeries (colinfo : ColInfo) (series : List (Option String)) :
    Except StageErr TypedColumn :=
  if colinfo.isEmpty then
    -- heuristic branch: inspect series[0] only
    match series with
    | [] => Except.error (.keyError "0")
    | none :: _ => Except.error .attributeError
    | some s0 :: _ =>
        match NUMERIC_UNIT_SUFFIXES.find? (fun suf => endsWithStr s0 suf) with
        | some suf =>
            (toNumericCells (series.map (Option.map (rstripChars · suf)))).map
              TypedColumn.nums
        | none => Except.ok (.strs series)
  else
    match lookupTag colinfo "kind" with
    | none => Except.error (.keyError "kind")
    | some kind =>
        if tagEqStr kind "Number" then
          match lookupTag colinfo "unit" with
          | some (.str u) =>
              (toNumericCells (series.map (Option.map (rstripChars · u)))).map
                TypedColumn.nums
          | some _ => Except.error .typeError
          | none => Except.ok (.strs series)
        else
          match lookupTag colinfo "enum" with
          | some (.str e) =>
              let cats := splitCommaStr e
              if cats.Nodup then Except.ok (.cat cats (astypeCat cats series))
              else Except.error .valueError
          | some _ => Except.error .attributeError
          | none =>
              if !tagEqStr kind "Str" then
                Except.error (.unrecognizedKind kind)
              else Except.ok (.strs series)

/-- Removing a genuine *suffix*, as the spec's words describe the unit
rule: remove `suffix` only when `s` ends with it, else leave `s`
unchanged.  Stated only to compare the spec's wording with the code's
`rstrip` character-set semantics. -/
def stripSuffix (s suffix : String) : String :=
  if endsWithStr s suffix then ⟨s.data.take (s.data.length - suffix.data.length)⟩
  else s

/-- The spec's wording of the `kind=Number`/`unit` rule ("strip the
unit string as a suffix, parse the remainder"), for comparison with
`sanitizeZincSeries`. -/
def numberUnitSpec (u : String) (cells : List (Option String)) :
    Except StageErr (List (Option Dec)) :=
  toNumericCells (cells.map (Option.map (stripSuffix · u)))

theorem toNumericCells_ok (cells : List (Option String))
    (h : ∀ s, some s ∈ cells → (parseFloat? s).isSome) :
    toNumericCells cells = .ok (cells.map (fun c => c.bind parseFloat?)) := by
  induction cells with
  | nil => rfl
  | cons c rest ih =>
      have hrest : ∀ s, some s ∈ rest → (parseFloat? s).isSome := by
        intro s hs; exact h s (List.mem_cons_of_mem _ hs)
      cases c with
      | none =>
          simp [toNumericCells, ih hrest, Except.map, Option.bind]
      | some s =>
          have hs : (parseFloat? s).isSome := h s (List.mem_cons_self _ _)
          obtain ⟨q, hq⟩ := Option.isSome_iff_exists.mp hs
          simp [toNumericCells, hq, ih hrest, Except.map, Option.bind]

theorem map_optionMap_bind_parse (f : String → String)
    (cells : List (Option String)) :
    (cells.map (Option.map f)).map (fun c => c.bind parseFloat?) =
      cells.map (fun c => c.bind (fun s => parseFloat? (f s))) := by
  rw [List.map_map]
  refine List.map_congr_left ?_
  intro c _
  cases c <;> rfl

theorem lookupTag_ne_nil {info : ColInfo} {k : String} {v : TagValue}
    (h : lookupTag info k = some v) : info.isEmpty = false := by
  cases info with
  | nil => simp [lookupTag, List.find?] at h
  | cons a l => rfl

/-- **C1 (amended).**  For a column whose metadata carries
`kind = Number` and a string `unit` tag, the coercion engine removes
from the right of every non-null cell all trailing characters that
occur in the unit string (Python `rstrip` character-set semantics, not
suffix removal) and parses the remainder as a floating-point number;
null cells pass through as missing. -/
theorem sanitize_number_unit_rstrip (colinfo : ColInfo)
    (cells : List (Option String)) (u : String)
    (hk : lookupTag colinfo "kind" = some (.str "Number"))
    (hu : lookupTag colinfo "unit" = some (.str u))
    (hall : ∀ s, some s ∈ cells → (parseFloat? (rstripChars s u)).isSome) :
    sanitizeZincSeries colinfo cells =
      .ok (.nums (cells.map (fun c =>
        c.bind (fun s => parseFloat? (rstripChars s u))))) := by
  have hne := lookupTag_ne_nil hk
  have hmapped : ∀ s, some s ∈ cells.map (Option.map (rstripChars · u)) →
      (parseFloat? s).isSome := by
    intro s hs
    obtain ⟨c, hc, hcs⟩ := List.mem_map.mp hs
    cases c with
    | none => simp [Option.map] at hcs
    | some t =>
        simp only [Option.map, Option.some.injEq] at hcs
        subst hcs
        exact hall t hc
  simp only [sanitizeZincSeries, hne, Bool.false_eq_true, if_false, hk, hu,
    tagEqStr, beq_self_eq_true, if_true, toNumericCells_ok _ hmapped,
    Except.map, map_optionMap_bind_parse]

/-- C1 witness: the spec's own example, `{kind: Number, unit: "°F"}`
over `["65.972°F", null, "68.553°F"]`, yields `[65.972, missing,
68.553]`. -/
theorem sanitize_number_unit_rstrip_witness :
    sanitizeZincSeries [("kind", .str "Number"), ("unit", .str "°F")]
      [some "65.972°F", none, some "68.553°F"]
      = .ok (.nums [some ⟨65972, 3⟩, none, some ⟨68553, 3⟩]) := by
  have h := sanitize_number_unit_rstrip
    [("kind", .str "Number"), ("unit", .str "°F")]
    [some "65.972°F", none, some "68.553°F"] "°F"
    (by decide) (by decide)
    (by
      intro s hs
      simp only [List.mem_cons, List.not_mem_nil, or_false,
        Option.some.injEq, reduceCtorEq, false_or] at hs
      rcases hs with h1 | h2
      · subst h1; decide
      · subst h2; decide)
  rw [h]; decide

/-- C1 counterexample: on the cell `"70F"` with unit `"°F"` the code
parses successfully to `70` (it strips the trailing `F` as a member of
the character set `{°, F}`), whereas stripping the unit *as a suffix*
and parsing the remainder — what the claim states — fails, since
`"70F"` does not end with `"°F"`. -/
theorem sanitize_number_unit_counterexample :
    sanitizeZincSeries [("kind", .str "Number"), ("unit", .str "°F")]
        [some "70F"] = .ok (.nums [some ⟨70, 0⟩])
    ∧ numberUnitSpec "°F" [some "70F"] = .error .valueError := by
  constructor <;> decide

/-- **C3 (amended).**  The enum branch applies only when a `kind` tag
is present and is not `Number`: in that case, with a string `enum` tag
whose comma-split pieces are distinct, the engine produces a
categorical column whose categories are those pieces in declared
order; cells equal to a category are kept and all other cells
(non-matching, empty, or null) become missing.  With an `enum` tag but
no `kind` tag the engine fails with a missing-key error, and with
`kind = Number` the numeric/passthrough path wins over `enum`. -/
theorem sanitize_enum_categorical (colinfo : ColInfo)
    (cells : List (Option String)) (k : TagValue) (e : String)
    (hk : lookupTag colinfo "kind" = some k)
    (hkn : tagEqStr k "Number" = false)
    (he : lookupTag colinfo "enum" = some (.str e))
    (hnd : (splitCommaStr e).Nodup) :
    sanitizeZincSeries colinfo cells =
      .ok (.cat (splitCommaStr e)
        (cells.map (fun c => c.bind (fun s =>
          if (splitCommaStr e).contains s then some s else none)))) := by
  have hne := lookupTag_ne_nil hk
  simp only [sanitizeZincSeries, hne, Bool.false_eq_true, if_false, hk, hkn,
    he, hnd, if_true, astypeCat]

/-- C3 witness: the spec's categorical example. -/
theorem sanitize_enum_categorical_witness :
    sanitizeZincSeries
      [("kind", .str "Str"),
       ("enum", .str "Nul,Occupied,Unoccupied,Bypass,Standby")]
      [some "Occupied", some "", some ""]
      = .ok (.cat ["Nul", "Occupied", "Unoccupied", "Bypass", "Standby"]
          [some "Occupied", none, none]) := by
  have h := sanitize_enum_categorical
    [("kind", .str "Str"),
     ("enum", .str "Nul,Occupied,Unoccupied,Bypass,Standby")]
    [some "Occupied", some "", some ""]
    (.str "Str") "Nul,Occupied,Unoccupied,Bypass,Standby"
    (by decide) (by decide) (by decide) (by decide)
  rw [h]; decide

/-- C3 counterexample: a column whose metadata contains an `enum` tag
but no `kind` tag does not produce a categorical column — the engine
reads `colinfo["kind"]` unconditionally and fails with a missing-key
error. -/
theorem sanitize_enum_counterexample :
    sanitizeZincSeries [("enum", .str "a,b")] [some "a"]
      = .error (.keyError "kind") := by decide

/-- **C4 (amended).**  A column whose metadata carries a `kind` tag
that is neither `Number` nor `Str` fails with `UnrecognizedKind`
naming the offending value — but only when no `enum` tag is present;
an `enum` tag takes precedence and yields a categorical column
instead. -/
theorem sanitize_unrecognized_kind (colinfo : ColInfo)
    (cells : List (Option String)) (k : TagValue)
    (hk : lookupTag colinfo "kind" = some k)
    (hn : tagEqStr k "Number" = false)
    (hs : tagEqStr k "Str" = false)
    (he : lookupTag colinfo "enum" = none) :
    sanitizeZincSeries colinfo cells = .error (.unrecognizedKind k) := by
  have hne := lookupTag_ne_nil hk
  simp only [sanitizeZincSeries, hne, Bool.false_eq_true, if_false, hk, hn,
    hs, he, Bool.not_false, if_true]

/-- C4 witness: `kind = Bool` with no enum fails with
`UnrecognizedKind Bool`. -/
theorem sanitize_unrecognized_kind_witness :
    sanitizeZincSeries [("kind", .str "Bool")] [some "x"]
      = .error (.unrecognizedKind (.str "Bool")) :=
  sanitize_unrecognized_kind [("kind", .str "Bool")] [some "x"] (.str "Bool")
    (by decide) (by decide) (by decide) (by decide)

/-- C4 counterexample: with `kind = Bool` (neither `Number` nor `Str`)
*and* an `enum` tag, the engine does not fail with `UnrecognizedKind`;
the enum branch runs first and returns a categorical column. -/
theorem sanitize_unrecognized_kind_counterexample :
    sanitizeZincSeries [("kind", .str "Bool"), ("enum", .str "a,b")]
      [some "a"] = .ok (.cat ["a", "b"] [some "a"]) := by decide

/-- **C5 (amended).**  With empty metadata the engine inspects only the
column's *first* cell.  If that cell is null the heuristic fails with
an attribute error (calling `.endswith` on the null), rather than
silently leaving the column untyped.  If it is a string matching none
of the known unit suffixes, the column passes through as plain
strings.  If it ends with a known suffix (first match in the fixed
list), that suffix's characters are stripped from the right of every
cell (`rstrip` character-set semantics) and the cells are parsed as
floating point, nulls passing through. -/
theorem sanitize_empty_heuristic (s0 : String) (rest : List (Option String)) :
    (sanitizeZincSeries [] (none :: rest) = .error .attributeError)
    ∧ (NUMERIC_UNIT_SUFFIXES.find? (fun suf => endsWithStr s0 suf) = none →
        sanitizeZincSeries [] (some s0 :: rest) = .ok (.strs (some s0 :: rest)))
    ∧ (∀ suf,
        NUMERIC_UNIT_SUFFIXES.find? (fun u => endsWithStr s0 u) = some suf →
        (∀ s, some s ∈ (some s0 :: rest) →
          (parseFloat? (rstripChars s suf)).isSome) →
        sanitizeZincSeries [] (some s0 :: rest) =
          .ok (.nums ((some s0 :: rest).map (fun c =>
            c.bind (fun s => parseFloat? (rstripChars s suf)))))) := by
  refine ⟨rfl, fun hf => ?_, fun suf hf hall => ?_⟩
  · simp only [sanitizeZincSeries, List.isEmpty_nil, if_true, hf]
  · have hmapped : ∀ s,
        some s ∈ (some s0 :: rest).map (Option.map (rstripChars · suf)) →
        (parseFloat? s).isSome := by
      intro s hs
      obtain ⟨c, hc, hcs⟩ := List.mem_map.mp hs
      cases c with
      | none => simp [Option.map] at hcs
      | some t =>
          simp only [Option.map, Option.some.injEq] at hcs
          subst hcs
          exact hall t hc
    simp only [sanitizeZincSeries, List.isEmpty_nil, if_true, hf,
      toNumericCells_ok _ hmapped, Except.map, map_optionMap_bind_parse]

/-- C5 witness: all three heuristic behaviors at concrete inputs — a
null first cell raises, the spec's `hisRead` example becomes numeric,
and a suffix-free first cell passes through. -/
theorem sanitize_empty_heuristic_witness :
    (sanitizeZincSeries [] [none, some "66.092°F"] = .error .attributeError)
    ∧ (sanitizeZincSeries [] [some "66.092°F", some "66.002°F"]
        = .ok (.nums [some ⟨66092, 3⟩, some ⟨66002, 3⟩]))
    ∧ (sanitizeZincSeries [] [some "abc"] = .ok (.strs [some "abc"])) := by
  refine ⟨(sanitize_empty_heuristic "x" [some "66.092°F"]).1, ?_,
    (sanitize_empty_heuristic "abc" []).2.1 (by decide)⟩
  have h := (sanitize_empty_heuristic "66.092°F" [some "66.002°F"]).2.2 "°F"
    (by decide)
    (by
      intro s hs
      simp only [List.mem_cons, List.not_mem_nil, or_false,
        Option.some.injEq] at hs
      rcases hs with h1 | h2
      · subst h1; decide
      · subst h2; decide)
  rw [h]; decide

/-- C5 counterexample: when the first cell is null, the heuristic does
not silently leave the column untyped (nor inspect the first *non-null*
cell, which here ends with a known suffix) — it fails with an
attribute error. -/
theorem sanitize_empty_heuristic_counterexample :
    sanitizeZincSeries [] [none, some "66.092°F"]
      = .error .attributeError := by decide

/-- Python `s.startswith(c)` for a one-character prefix. -/
def startsWithChar (s : String) (c : Char) : Bool :=
  s.data.head? == some c

/-- Python `s.split(" ", maxsplit=1)` when a space is present: the text
before the first space and everything after it; `none` when `s`
contains no space (where tuple unpacking of the one-element split
raises `ValueError`). -/
def splitFirstSpace (s : String) : Option (String × String) :=
  let pre := s.data.takeWhile (fun c => !(c == ' '))
  let post := s.data.dropWhile (fun c => !(c == ' '))
  match post with
  | [] => none
  | _ :: rest => some (⟨pre⟩, ⟨rest⟩)

/-- Lines 142–148 of `_parse_zinc_header`: normalization of one
non-marker raw tag value.  `v.strip('"')` removes *every* leading and
trailing quote character; if the stripped text begins with `@` it is
split at the first space into `(refid, refname)` (no space: the tuple
unpacking raises `ValueError`) and `refname` is quote-stripped again;
otherwise the stripped text is stored as a plain string. -/
def normalizeTagValue (v : String) : Except StageErr TagValue :=
  let v' := stripChars v "\""
  if startsWithChar v' '@' then
    match splitFirstSpace v' with
    | none => Except.error .valueError
    | some (refid, refname) => Except.ok (.ref refid (stripChars refname "\""))
  else Except.ok (.str v')

/-- One layer of enclosing quotes, as the claim's words describe the
normalizer's quote handling: remove exactly one quote from each end
when both ends carry one.  Stated only for comparison with the code's
`strip('"')`. -/
def oneLayerStrip (s : String) : String :=
  if s.data.length ≥ 2 && s.data.head? == some '"'
      && s.data.getLast? == some '"' then
    ⟨(s.data.drop 1).dropLast⟩
  else s

/-- **C6 (amended).**  For a non-marker raw value the normalizer strips
*all* leading and trailing quote characters (not exactly one layer);
if the stripped text begins with `@` it splits on the first space into
`(id, rest)`, strips quotes from `rest`, and stores `RefValue(id,
rest)` — raising a `ValueError` when the text has no space — and
otherwise stores the stripped text as a plain string. -/
theorem normalizeTagValue_spec (v v' : String)
    (hstrip : v' = stripChars v "\"") :
    (startsWithChar v' '@' = false → normalizeTagValue v = .ok (.str v'))
    ∧ (∀ pre post, startsWithChar v' '@' = true →
        splitFirstSpace v' = some (pre, post) →
        normalizeTagValue v = .ok (.ref pre (stripChars post "\"")))
    ∧ (startsWithChar v' '@' = true → splitFirstSpace v' = none →
        normalizeTagValue v = .error .valueError) := by
  subst hstrip
  refine ⟨fun hat => ?_, fun pre post hat hsplit => ?_, fun hat hsplit => ?_⟩
  · simp only [normalizeTagValue, hat, Bool.false_eq_true, if_false]
  · simp only [normalizeTagValue, hat, if_true, hsplit]
  · simp only [normalizeTagValue, hat, if_true, hsplit]

/-- C6 witness: the spec's ref-normalization example,
`@p:q01b001:r:abc "Building One"` (as emitted by the tokenizer, with
its trailing quote) normalizes to
`RefValue("@p:q01b001:r:abc", "Building One")`. -/
theorem normalizeTagValue_spec_witness :
    normalizeTagValue "@p:q01b001:r:abc \"Building One\""
      = .ok (.ref "@p:q01b001:r:abc" "Building One") := by
  have h := (normalizeTagValue_spec "@p:q01b001:r:abc \"Building One\""
      (stripChars "@p:q01b001:r:abc \"Building One\"" "\"") rfl).2.1
    "@p:q01b001:r:abc" "\"Building One" (by decide) (by decide)
  rw [h]; decide

/-- C6 counterexample: on the raw value `""x""` (two quote layers,
producible by the tokenizer from a column such as `a:""x""`) the code
strips *both* layers and stores `x`, while stripping exactly one layer
of enclosing quotes — what the claim states — would leave `"x"`. -/
theorem normalizeTagValue_counterexample :
    normalizeTagValue "\"\"x\"\"" = .ok (.str "x")
    ∧ oneLayerStrip "\"\"x\"\"" = "\"x\""
    ∧ ("x" : String) ≠ "\"x\"" := by
  refine ⟨by decide, by decide, by decide⟩

/-- One step of the numeric-tag re-parse loop (lines 151–155 of
`_parse_zinc_header`): when `tag` is present and a `unit` tag exists,
replace the tag's value by `float(val.rstrip(unit))`:
`AttributeError` when the stored value is not a string (no `.rstrip`),
`TypeError` when the unit value is not a string, `ValueError` when the
stripped text does not parse as a float. -/
def applyNumericTag (unit : Option TagValue) (acc : ColInfo) (tag : String) :
    Except StageErr ColInfo :=
  match lookupTag acc tag with
  | none => Except.ok acc
  | some val =>
      match unit with
      | none => Except.ok acc
      | some u =>
          match val with
          | .str v =>
              match u with
              | .str us =>
                  match parseFloat? (rstripChars v us) with
                  | some q => Except.ok (updateAssoc acc tag (.num q))
                  | none => Except.error .valueError
              | _ => Except.error .typeError
          | _ => Except.error .attributeError

/-- The numeric-tag loop over a list of tag names. -/
def applyTagsList (unit : Option TagValue) :
    List String → ColInfo → Except StageErr ColInfo
  | [], acc => Except.ok acc
  | t :: ts, acc =>
      match applyNumericTag unit acc t with
      | .ok acc' => applyTagsList unit ts acc'
      | .error e => Except.error e

/-- Lines 149–155 of `_parse_zinc_header`: `unit` is read once, then
every tag of `NUMERIC_TAGS` present on the column is re-parsed. -/
def applyNumericTags (info : ColInfo) : Except StageErr ColInfo :=
  applyTagsList (lookupTag info "unit") NUMERIC_TAGS info

theorem lookupTag_updateAssoc_self (info : ColInfo) (k : String)
    (v : TagValue) : lookupTag (updateAssoc info k v) k = some v := by
  induction info with
  | nil => simp [updateAssoc, lookupTag, List.find?]
  | cons a rest ih =>
      obtain ⟨k', v'⟩ := a
      by_cases h : k' = k
      · subst h; simp [updateAssoc, lookupTag, List.find?]
      · have hbeq : (k' == k) = false := by simp [h]
        simp only [updateAssoc, hbeq, Bool.false_eq_true, if_false]
        simpa [lookupTag, List.find?, hbeq] using ih

theorem lookupTag_updateAssoc_ne (info : ColInfo) (k k' : String)
    (v : TagValue) (h : k' ≠ k) :
    lookupTag (updateAssoc info k v) k' = lookupTag info k' := by
  induction info with
  | nil =>
      have hbeq : (k == k') = false := by
        rw [beq_eq_false_iff_ne]; exact Ne.symm h
      simp [updateAssoc, lookupTag, List.find?, hbeq]
  | cons a rest ih =>
      obtain ⟨k₀, v₀⟩ := a
      by_cases h0 : k₀ = k
      · subst h0
        have hbeq : (k₀ == k₀) = true := by simp
        have hbeq' : (k₀ == k') = false := by
          rw [beq_eq_false_iff_ne]; exact Ne.symm h
        simp [updateAssoc, lookupTag, List.find?, hbeq, hbeq']
      · have hbeq : (k₀ == k) = false := by simp [h0]
        by_cases h1 : k₀ = k'
        · subst h1
          simp [updateAssoc, lookupTag, List.find?, hbeq]
        · have hbeq' : (k₀ == k') = false := by simp [h1]
          simp only [updateAssoc, hbeq, Bool.false_eq_true, if_false]
          simpa [lookupTag, List.find?, hbeq'] using ih

theorem applyNumericTag_unit_none (acc : ColInfo) (t : String) :
    applyNumericTag none acc t = .ok acc := by
  unfold applyNumericTag
  cases lookupTag acc t <;> rfl

theorem applyTagsList_unit_none (tags : List String) (info : ColInfo) :
    applyTagsList none tags info = .ok info := by
  induction tags with
  | nil => rfl
  | cons t ts ih => simp [applyTagsList, applyNumericTag_unit_none, ih]

theorem applyTagsList_str_ok (us : String) (tags : List String)
    (info : ColInfo) (hnd : tags.Nodup)
    (hall : ∀ t ∈ tags, ∀ v, lookupTag info t = some v →
      ∃ s, v = .str s ∧ (parseFloat? (rstripChars s us)).isSome) :
    ∃ info', applyTagsList (some (.str us)) tags info = .ok info'
      ∧ (∀ t ∈ tags, ∀ s q, lookupTag info t = some (.str s) →
          parseFloat? (rstripChars s us) = some q →
          lookupTag info' t = some (.num q))
      ∧ (∀ k, k ∉ tags → lookupTag info' k = lookupTag info k) := by
  induction tags generalizing info with
  | nil => exact ⟨info, rfl, by simp, fun k _ => rfl⟩
  | cons t ts ih =>
      have htnots : t ∉ ts := (List.nodup_cons.mp hnd).1
      have hndts : ts.Nodup := (List.nodup_cons.mp hnd).2
      cases hlt : lookupTag info t with
      | none =>
          have hstep : applyNumericTag (some (.str us)) info t = .ok info := by
            simp [applyNumericTag, hlt]
          have hallts : ∀ t' ∈ ts, ∀ v, lookupTag info t' = some v →
              ∃ s, v = .str s ∧ (parseFloat? (rstripChars s us)).isSome :=
            fun t' ht' => hall t' (List.mem_cons_of_mem _ ht')
          obtain ⟨info', h1, h2, h3⟩ := ih info hndts hallts
          refine ⟨info', by simp [applyTagsList, hstep, h1], ?_, ?_⟩
          · intro t' ht' s q hl hp
            rcases List.mem_cons.mp ht' with h | h
            · subst h; rw [hlt] at hl; cases hl
            · exact h2 t' h s q hl hp
          · intro k hk
            exact h3 k (fun h => hk (List.mem_cons_of_mem _ h))
      | some v =>
          obtain ⟨s, hv, hps⟩ := hall t (List.mem_cons_self _ _) v hlt
          subst hv
          obtain ⟨q, hq⟩ := Option.isSome_iff_exists.mp hps
          have hstep : applyNumericTag (some (.str us)) info t
              = .ok (updateAssoc info t (.num q)) := by
            simp [applyNumericTag, hlt, hq]
          set info₁ := updateAssoc info t (.num q) with hinfo₁
          have hlook₁ : ∀ t' ∈ ts, lookupTag info₁ t' = lookupTag info t' := by
            intro t' ht'
            exact lookupTag_updateAssoc_ne info t t' (.num q)
              (fun h => htnots (h ▸ ht'))
          have hallts : ∀ t' ∈ ts, ∀ v, lookupTag info₁ t' = some v →
              ∃ s', v = .str s' ∧ (parseFloat? (rstripChars s' us)).isSome := by
            intro t' ht' v hv
            exact hall t' (List.mem_cons_of_mem _ ht') v (hlook₁ t' ht' ▸ hv)
          obtain ⟨info', h1, h2, h3⟩ := ih info₁ hndts hallts
          refine ⟨info', by simp [applyTagsList, hstep, h1], ?_, ?_⟩
          · intro t' ht' s' q' hl hp
            rcases List.mem_cons.mp ht' with h | h
            · subst h
              rw [hlt] at hl
              cases hl
              rw [hq] at hp
              cases hp
              rw [h3 t' htnots, hinfo₁, lookupTag_updateAssoc_self]
            · rw [h2 t' h s' q' (by rw [hlook₁ t' h, hl]) hp]
          · intro k hk
            rw [h3 k (fun h => hk (List.mem_cons_of_mem _ h)), hinfo₁,
              lookupTag_updateAssoc_ne info t k (.num q)
                (fun h => hk (h ▸ List.mem_cons_self _ _))]

/-- **C7 (amended).**  After header normalization, for every column and
every numeric tag of `{curVal, precision, writeLevel, writeVal}`
present on it: when a string-valued `unit` tag is also present (and
every such numeric tag holds a string that parses after the strip),
the stored value becomes the float obtained by removing from the right
every character occurring in the unit string (`rstrip` character-set
semantics, not suffix removal) and parsing; when no `unit` tag is
present, every stored value is kept unchanged as its raw string. -/
theorem applyNumericTags_spec (info : ColInfo) :
    (lookupTag info "unit" = none → applyNumericTags info = .ok info)
    ∧ (∀ us, lookupTag info "unit" = some (.str us) →
        (∀ t ∈ NUMERIC_TAGS, ∀ v, lookupTag info t = some v →
          ∃ s, v = .str s ∧ (parseFloat? (rstripChars s us)).isSome) →
        (∀ t ∈ NUMERIC_TAGS, ∀ s q, lookupTag info t = some (.str s) →
          parseFloat? (rstripChars s us) = some q →
          (applyNumericTags info).map (fun i => lookupTag i t)
            = .ok (some (.num q)))
        ∧ (∀ k, k ∉ NUMERIC_TAGS →
            (applyNumericTags info).map (fun i => lookupTag i k)
              = .ok (lookupTag info k))) := by
  constructor
  · intro hu
    unfold applyNumericTags
    rw [hu]
    exact applyTagsList_unit_none _ _
  · intro us hu hall
    obtain ⟨info', h1, h2, h3⟩ :=
      applyTagsList_str_ok us NUMERIC_TAGS info (by decide) hall
    have happ : applyNumericTags info = .ok info' := by
      unfold applyNumericTags
      rw [hu]
      exact h1
    constructor
    · intro t ht s q hl hp
      rw [happ, Except.map, h2 t ht s q hl hp]
    · intro k hk
      rw [happ, Except.map, h3 k hk]

/-- C7 witness: a column with `curVal = "65.972°F"` and `unit = "°F"`
stores `curVal = 65.972` after the numeric-tag pass, and a column with
`curVal = "65.972°F"` and no unit keeps the raw string. -/
theorem applyNumericTags_spec_witness :
    ((applyNumericTags [("curVal", .str "65.972°F"), ("unit", .str "°F")]).map
      (fun i => lookupTag i "curVal") = .ok (some (.num ⟨65972, 3⟩)))
    ∧ applyNumericTags [("curVal", .str "65.972°F")]
        = .ok [("curVal", .str "65.972°F")] := by
  constructor
  · have h := ((applyNumericTags_spec
        [("curVal", .str "65.972°F"), ("unit", .str "°F")]).2 "°F" (by decide)
      (by
        intro t ht v hv
        simp only [NUMERIC_TAGS, List.mem_cons, List.not_mem_nil,
          or_false] at ht
        rcases ht with h | h | h | h <;> subst h
        · have h0 : lookupTag
              [("curVal", TagValue.str "65.972°F"), ("unit", TagValue.str "°F")]
              "curVal" = some (.str "65.972°F") := by decide
          rw [h0] at hv
          exact ⟨"65.972°F", (Option.some.inj hv).symm, by decide⟩
        · have h0 : lookupTag
              [("curVal", TagValue.str "65.972°F"), ("unit", TagValue.str "°F")]
              "precision" = none := by decide
          rw [h0] at hv; cases hv
        · have h0 : lookupTag
              [("curVal", TagValue.str "65.972°F"), ("unit", TagValue.str "°F")]
              "writeLevel" = none := by decide
          rw [h0] at hv; cases hv
        · have h0 : lookupTag
              [("curVal", TagValue.str "65.972°F"), ("unit", TagValue.str "°F")]
              "writeVal" = none := by decide
          rw [h0] at hv; cases hv)).1
      "curVal" (by decide) "65.972°F" ⟨65972, 3⟩ (by decide) (by decide)
    exact h
  · exact (applyNumericTags_spec [("curVal", .str "65.972°F")]).1 (by decide)

/-- C7 counterexample: with `curVal = "70F"` and `unit = "°F"` the code
stores the float `70` (character-set `rstrip` removes the trailing
`F`), yet the unit string is *not* a suffix of `"70F"` — suffix
stripping leaves `"70F"`, which does not parse — so the stored value
is not "obtained by stripping the unit string as a suffix and
parsing", as the claim states. -/
theorem applyNumericTags_counterexample :
    ((applyNumericTags [("curVal", .str "70F"), ("unit", .str "°F")]).map
      (fun i => lookupTag i "curVal") = .ok (some (.num ⟨70, 0⟩)))
    ∧ stripSuffix "70F" "°F" = "70F"
    ∧ parseFloat? "70F" = none := by
  refine ⟨by decide, by decide, by decide⟩

/-- A raw tokenizer value: the generator `_tokenize_column` yields
either the `MARKER` sentinel or a slice of the input text. -/
inductive RawVal where
  | marker : RawVal
  | str (s : String) : RawVal
  deriving DecidableEq, Repr

/-- The run of the tokenizer generator: the tokens it yielded, in
order, and — when it raised instead of finishing — the exception
(`indexError` for the out-of-bounds `s[j+1]` lookahead,
`assertionError` for the failed ref-termination assert).  Tokens
yielded before a raise are kept, mirroring generator semantics. -/
structure TokResult where
  toks : List (String × RawVal)
  err : Option StageErr
  deriving DecidableEq, Repr

/-- Prepend one yielded token to a run. -/
def consTok (t : String × RawVal) (r : TokResult) : TokResult :=
  ⟨t :: r.toks, r.err⟩

/-- The scan loop of `_tokenize_column`, translated step by step, one
character per step.  State: `cur` is the slice `s[i+1:j]` accumulated
since the last boundary, `tag` the pending tag name once a `:` was
consumed (`None` = still seeking a tag), `inQ`/`inR` the
`inside_quotes` / `inside_ref` flags.  Python's three in-step
look-aheads are encoded as pending-state flags resolved on the next
character: `esc` (a backslash was consumed; copy the next character
verbatim), `jc` (a tag-closing `:` was consumed; Python immediately
reads `s[j+1]` — `IndexError` when input is exhausted, a `@` is
consumed into ref mode, anything else is rescanned normally), and
`refEnd` (the quote ending a ref was consumed; Python asserts that the
next position is a space or the end of input before yielding the
pending value).  In seeking mode a space emits the pending text as a
marker tag; in value mode `"` toggles the quote flag and an unquoted
space outside a ref emits the pending value; at the end of input the
pending text is emitted as a marker (no tag pending) or as the tag's
value. -/
def tokAux (cur : List Char) (tag : Option (List Char))
    (inQ inR esc jc refEnd : Bool) : List Char → TokResult
  | [] =>
      if jc then ⟨[], some .indexError⟩
      else if refEnd then
        match tag with
        | some tg =>
            ⟨[(String.mk tg, .str (String.mk cur)), (String.mk [], .marker)],
              none⟩
        | none => ⟨[(String.mk cur, .marker)], none⟩
      else
        match tag with
        | none => ⟨[(String.mk cur, .marker)], none⟩
        | some tg => ⟨[(String.mk tg, .str (String.mk cur))], none⟩
  | c :: rest =>
      if esc then tokAux (cur ++ [c]) tag inQ inR false jc refEnd rest
      else if refEnd then
        match tag with
        | some tg =>
            if c == ' ' then
              consTok (String.mk tg, .str (String.mk cur))
                (tokAux [] none false false false false false rest)
            else ⟨[], some .assertionError⟩
        | none => ⟨[], some .assertionError⟩
      else if jc && c == '@' then
        tokAux ['@'] tag inQ true false false false rest
      else if c == '\\' then
        tokAux (cur ++ [c]) tag inQ inR true false false rest
      else
        match tag with
        | none =>
            if c == ':' then tokAux [] (some cur) inQ inR false true false rest
            else if c == ' ' then
              consTok (String.mk cur, .marker)
                (tokAux [] none inQ inR false false false rest)
            else tokAux (cur ++ [c]) none inQ inR false false false rest
        | some tg =>
            if c == '"' && inQ && inR then
              tokAux (cur ++ [c]) (some tg) inQ inR false false true rest
            else if c == '"' then
              tokAux (cur ++ [c]) (some tg) (!inQ) inR false false false rest
            else if c == ' ' && !inQ && !inR then
              consTok (String.mk tg, .str (String.mk cur))
                (tokAux [] none inQ inR false false false rest)
            else tokAux (cur ++ [c]) (some tg) inQ inR false false false rest

/-- `_tokenize_column(s)`, run to completion. -/
def tokenizeColumn (s : String) : TokResult :=
  tokAux [] none false false false false false s.data

theorem tok_end_seek (cur : List Char) (inQ inR : Bool) :
    tokAux cur none inQ inR false false false []
      = ⟨[(String.mk cur, .marker)], none⟩ := rfl

theorem tok_end_val (tg cur : List Char) (inQ inR : Bool) :
    tokAux cur (some tg) inQ inR false false false []
      = ⟨[(String.mk tg, .str (String.mk cur))], none⟩ := rfl

theorem tok_end_jc (cur : List Char) (tag : Option (List Char))
    (inQ inR : Bool) :
    tokAux cur tag inQ inR false true false [] = ⟨[], some .indexError⟩ := rfl

theorem tok_end_refend (tg cur : List Char) (inQ inR : Bool) :
    tokAux cur (some tg) inQ inR false false true []
      = ⟨[(String.mk tg, .str (String.mk cur)), (String.mk [], .marker)],
          none⟩ := rfl

theorem tok_step_seek_plain (c : Char) (hc1 : (c == ':') = false)
    (hc2 : (c == ' ') = false) (hc3 : (c == '\\') = false)
    (cur : List Char) (inQ inR : Bool) (rest : List Char) :
    tokAux cur none inQ inR false false false (c :: rest)
      = tokAux (cur ++ [c]) none inQ inR false false false rest := by
  simp [tokAux, hc1, hc2, hc3]

theorem tok_step_seek_space (cur : List Char) (inQ inR : Bool)
    (rest : List Char) :
    tokAux cur none inQ inR false false false (' ' :: rest)
      = consTok (String.mk cur, .marker)
          (tokAux [] none inQ inR false false false rest) := rfl

theorem tok_step_seek_colon (cur : List Char) (inQ inR : Bool)
    (rest : List Char) :
    tokAux cur none inQ inR false false false (':' :: rest)
      = tokAux [] (some cur) inQ inR false true false rest := rfl

theorem tok_step_jc_at (cur : List Char) (tag : Option (List Char))
    (inQ : Bool) (rest : List Char) :
    tokAux cur tag inQ false false true false ('@' :: rest)
      = tokAux ['@'] tag inQ true false false false rest := rfl

theorem tok_step_jc_skip (c : Char) (hc : (c == '@') = false)
    (cur : List Char) (tag : Option (List Char)) (inQ inR : Bool)
    (rest : List Char) :
    tokAux cur tag inQ inR false true false (c :: rest)
      = tokAux cur tag inQ inR false false false (c :: rest) := by
  simp [tokAux, hc]

theorem tok_step_val_plain (c : Char) (hc1 : (c == '"') = false)
    (hc2 : (c == ' ') = false) (hc3 : (c == '\\') = false)
    (tg cur : List Char) (inQ inR : Bool) (rest : List Char) :
    tokAux cur (some tg) inQ inR false false false (c :: rest)
      = tokAux (cur ++ [c]) (some tg) inQ inR false false false rest := by
  simp [tokAux, hc1, hc2, hc3]

theorem tok_step_val_space_quoted (tg cur : List Char) (inQ inR : Bool)
    (h : (inQ || inR) = true) (rest : List Char) :
    tokAux cur (some tg) inQ inR false false false (' ' :: rest)
      = tokAux (cur ++ [' ']) (some tg) inQ inR false false false rest := by
  cases inQ <;> cases inR <;> first | rfl | exact absurd h (by decide)

theorem tok_step_val_quote_toggle (tg cur : List Char) (inQ inR : Bool)
    (h : (inQ && inR) = false) (rest : List Char) :
    tokAux cur (some tg) inQ inR false false false ('"' :: rest)
      = tokAux (cur ++ ['"']) (some tg) (!inQ) inR false false false rest := by
  cases inQ <;> cases inR <;> first | rfl | exact absurd h (by decide)

theorem tok_step_val_refend (tg cur : List Char) (rest : List Char) :
    tokAux cur (some tg) true true false false false ('"' :: rest)
      = tokAux (cur ++ ['"']) (some tg) true true false false true rest := rfl

theorem tok_step_val_space_plain (tg cur : List Char) (rest : List Char) :
    tokAux cur (some tg) false false false false false (' ' :: rest)
      = consTok (String.mk tg, .str (String.mk cur))
          (tokAux [] none false false false false false rest) := rfl

theorem tok_step_refend_space (tg cur : List Char) (inQ inR : Bool)
    (rest : List Char) :
    tokAux cur (some tg) inQ inR false false true (' ' :: rest)
      = consTok (String.mk tg, .str (String.mk cur))
          (tokAux [] none false false false false false rest) := rfl

theorem tok_scan_seek (n : List Char)
    (h : ∀ c ∈ n, (c == ':') = false ∧ (c == ' ') = false
      ∧ (c == '\\') = false) :
    ∀ (cur rest : List Char) (inQ inR : Bool),
    tokAux cur none inQ inR false false false (n ++ rest)
      = tokAux (cur ++ n) none inQ inR false false false rest := by
  induction n with
  | nil => intro cur rest inQ inR; simp
  | cons c n' ih =>
      intro cur rest inQ inR
      obtain ⟨h1, h2, h3⟩ := h c (List.mem_cons_self _ _)
      rw [List.cons_append, tok_step_seek_plain c h1 h2 h3,
        ih (fun x hx => h x (List.mem_cons_of_mem _ hx)) (cur ++ [c]) rest]
      simp

theorem tok_scan_val (s : List Char) (inQ inR : Bool)
    (h : ∀ c ∈ s, (c == '"') = false ∧ (c == '\\') = false
      ∧ (c = ' ' → (inQ || inR) = true)) :
    ∀ (tg cur rest : List Char),
    tokAux cur (some tg) inQ inR false false false (s ++ rest)
      = tokAux (cur ++ s) (some tg) inQ inR false false false rest := by
  induction s with
  | nil => intro tg cur rest; simp
  | cons c s' ih =>
      intro tg cur rest
      obtain ⟨h1, h2, h3⟩ := h c (List.mem_cons_self _ _)
      by_cases hsp : c = ' '
      · subst hsp
        rw [List.cons_append, tok_step_val_space_quoted tg cur inQ inR (h3 rfl),
          ih (fun x hx => h x (List.mem_cons_of_mem _ hx)) tg (cur ++ [' '])]
        simp
      · have h2' : (c == ' ') = false := beq_eq_false_iff_ne.mpr hsp
        rw [List.cons_append, tok_step_val_plain c h1 h2' h2,
          ih (fun x hx => h x (List.mem_cons_of_mem _ hx)) tg (cur ++ [c])]
        simp

/-- A character allowed in a column or tag name of the header grammar
`colName (SP tag (":" value)?)*`: anything that cannot act as a
delimiter or escape. -/
def isNameChar (c : Char) : Bool :=
  !(c == ' ') && !(c == ':') && !(c == '\\') && !(c == '"') && !(c == '@')

/-- A tag value of the header grammar: a bare unquoted value, a quoted
string, or a ref literal `@id "display"` — the shapes the header
grammar actually encodes. -/
inductive ValueDef where
  | bare (s : List Char) : ValueDef
  | quoted (s : List Char) : ValueDef
  | ref (id : List Char) (dis : List Char) : ValueDef
  deriving DecidableEq, Repr

/-- One tag of the header grammar: a bare marker tag or `tag:value`. -/
inductive TagDef where
  | markerTag (name : List Char) : TagDef
  | valueTag (name : List Char) (v : ValueDef) : TagDef
  deriving DecidableEq, Repr

/-- A column definition `colName (SP tag (":" value)?)*`. -/
structure ColDef where
  name : List Char
  tags : List TagDef
  deriving DecidableEq, Repr

/-- Well-formedness of a grammar value: a bare value is nonempty,
contains no space, quote, or backslash, and does not begin with `@`
(that shape is the ref literal); a quoted value's content has no quote
or backslash; a ref id has no space, quote, or backslash and its
display name no quote or backslash. -/
def wfValue : ValueDef → Bool
  | .bare s => !s.isEmpty
      && s.all (fun c => !(c == ' ') && !(c == '"') && !(c == '\\'))
      && !(s.head? == some '@')
  | .quoted s => s.all (fun c => !(c == '"') && !(c == '\\'))
  | .ref id dis =>
      id.all (fun c => !(c == ' ') && !(c == '"') && !(c == '\\'))
        && dis.all (fun c => !(c == '"') && !(c == '\\'))

/-- Well-formedness of a grammar tag: nonempty name of name
characters, and a well-formed value when present. -/
def wfTag : TagDef → Bool
  | .markerTag n => !n.isEmpty && n.all isNameChar
  | .valueTag n v => !n.isEmpty && n.all isNameChar && wfValue v

/-- Well-formedness of a column definition. -/
def wfCol (cd : ColDef) : Bool :=
  !cd.name.isEmpty && cd.name.all isNameChar && cd.tags.all wfTag

/-- Text of a grammar value. -/
def renderValue : ValueDef → List Char
  | .bare s => s
  | .quoted s => '"' :: s ++ ['"']
  | .ref id dis => '@' :: id ++ ' ' :: '"' :: dis ++ ['"']

/-- Text of a grammar tag. -/
def renderTag : TagDef → List Char
  | .markerTag n => n
  | .valueTag n v => n ++ ':' :: renderValue v

/-- Text of a tag list: one space before every tag. -/
def renderTags : List TagDef → List Char
  | [] => []
  | t :: ts => ' ' :: (renderTag t ++ renderTags ts)

/-- Text of a column definition. -/
def renderCol (cd : ColDef) : List Char :=
  cd.name ++ renderTags cd.tags

theorem nameChar_props {c : Char} (h : isNameChar c = true) :
    (c == ':') = false ∧ (c == ' ') = false ∧ (c == '\\') = false := by
  simp only [isNameChar, Bool.and_eq_true, Bool.not_eq_true'] at h
  exact ⟨h.1.1.1.2, h.1.1.1.1, h.1.1.2⟩

theorem val_char_props {c : Char}
    (h : ((!(c == ' ')) = true ∧ (!(c == '"')) = true)
      ∧ (!(c == '\\')) = true) :
    (c == ' ') = false ∧ (c == '"') = false ∧ (c == '\\') = false := by
  simp only [Bool.not_eq_true'] at h
  exact ⟨h.1.1, h.1.2, h.2⟩

theorem qchar_props {c : Char}
    (h : (!(c == '"')) = true ∧ (!(c == '\\')) = true) :
    (c == '"') = false ∧ (c == '\\') = false := by
  simp only [Bool.not_eq_true'] at h
  exact ⟨h.1, h.2⟩

/-- Scanning a well-formed bare or quoted value from the post-colon
lookahead state leaves the machine in plain value mode with the value
text accumulated. -/
theorem tok_value_run_plain (nm : List Char) (v : ValueDef)
    (hplain : (∃ s, v = .bare s) ∨ (∃ s, v = .quoted s))
    (hv : wfValue v = true) (rest : List Char) :
    tokAux [] (some nm) false false false true false (renderValue v ++ rest)
      = tokAux (renderValue v) (some nm) false false false false false rest := by
  rcases hplain with ⟨s, rfl⟩ | ⟨s, rfl⟩
  · simp only [wfValue, Bool.and_eq_true, List.all_eq_true] at hv
    obtain ⟨⟨hne, hall⟩, hhead⟩ := hv
    cases s with
    | nil => simp [List.isEmpty] at hne
    | cons c s' =>
        obtain ⟨hc1, hc2, hc3⟩ := val_char_props (hall c (List.mem_cons_self _ _))
        have hat : (c == '@') = false := by
          simp only [renderValue, List.head?, Bool.not_eq_true'] at hhead
          simpa using hhead
        rw [show renderValue (.bare (c :: s')) ++ rest
            = c :: (s' ++ rest) from by simp [renderValue],
          tok_step_jc_skip c hat,
          tok_step_val_plain c hc2 hc1 hc3,
          tok_scan_val s' false false
            (fun x hx => by
              obtain ⟨g1, g2, g3⟩ :=
                val_char_props (hall x (List.mem_cons_of_mem _ hx))
              exact ⟨g2, g3, fun hsp =>
                absurd hsp (beq_eq_false_iff_ne.mp g1)⟩)]
        simp [renderValue]
  · simp only [wfValue, Bool.and_eq_true, List.all_eq_true] at hv
    rw [show renderValue (.quoted s) ++ rest
        = '"' :: (s ++ ('"' :: rest)) from by simp [renderValue],
      tok_step_jc_skip '"' (by decide),
      tok_step_val_quote_toggle nm [] false false (by decide),
      Bool.not_false,
      tok_scan_val s true false
        (fun x hx => by
          obtain ⟨g1, g2⟩ := qchar_props (hv x hx)
          exact ⟨g1, g2, fun _ => rfl⟩),
      tok_step_val_quote_toggle nm (([] ++ ['"']) ++ s) true false (by decide),
      Bool.not_true]
    simp [renderValue]

/-- Scanning a well-formed ref literal from the post-colon lookahead
state leaves the machine in the ref-termination (`assert`) state with
the full ref text accumulated. -/
theorem tok_value_run_ref (nm id dis : List Char)
    (hv : wfValue (.ref id dis) = true) (rest : List Char) :
    tokAux [] (some nm) false false false true false
        (renderValue (.ref id dis) ++ rest)
      = tokAux (renderValue (.ref id dis)) (some nm) true true false false true
          rest := by
  simp only [wfValue, Bool.and_eq_true, List.all_eq_true] at hv
  obtain ⟨hid, hdis⟩ := hv
  rw [show renderValue (.ref id dis) ++ rest
      = '@' :: (id ++ (' ' :: ('"' :: (dis ++ ('"' :: rest))))) from by
        simp [renderValue],
    tok_step_jc_at,
    tok_scan_val id false true
      (fun x hx => by
        obtain ⟨g1, g2, g3⟩ := val_char_props (hid x hx)
        exact ⟨g2, g3, fun _ => rfl⟩),
    tok_step_val_space_quoted nm (['@'] ++ id) false true (by decide),
    tok_step_val_quote_toggle nm ((['@'] ++ id) ++ [' ']) false true
      (by decide),
    Bool.not_false,
    tok_scan_val dis true true
      (fun x hx => by
        obtain ⟨g1, g2⟩ := qchar_props (hdis x hx)
        exact ⟨g1, g2, fun _ => rfl⟩),
    tok_step_val_refend]
  simp [renderValue]

/-- Processing one well-formed tag followed by a rendered tag list
completes without error, given that the machine completes on the tag
list from seeking mode (`hp1`) and on any nonempty tail (`hp2cons`). -/
theorem tok_part2_core (t : TagDef) (ts : List TagDef) (hwt : wfTag t = true)
    (hp1 : ∀ cur, ∃ tl, tokAux cur none false false false false false
        (renderTags ts) = ⟨(String.mk cur, .marker) :: tl, none⟩)
    (hp2cons : ∀ t' ts'', ts = t' :: ts'' →
      ∃ tl, tokAux [] none false false false false false
        (renderTag t' ++ renderTags ts'') = ⟨tl, none⟩) :
    ∃ tl, tokAux [] none false false false false false
      (renderTag t ++ renderTags ts) = ⟨tl, none⟩ := by
  cases t with
  | markerTag nm =>
      simp only [wfTag, Bool.and_eq_true, Bool.not_eq_true',
        List.all_eq_true] at hwt
      have hchars : ∀ c ∈ nm, (c == ':') = false ∧ (c == ' ') = false
          ∧ (c == '\\') = false := fun c hc => nameChar_props (hwt.2 c hc)
      rw [show renderTag (.markerTag nm) = nm from rfl,
        tok_scan_seek nm hchars [] (renderTags ts) false false]
      obtain ⟨tl, htl⟩ := hp1 ([] ++ nm)
      exact ⟨_, htl⟩
  | valueTag nm v =>
      simp only [wfTag, Bool.and_eq_true, Bool.not_eq_true',
        List.all_eq_true] at hwt
      obtain ⟨⟨hne, hname⟩, hv⟩ := hwt
      have hchars : ∀ c ∈ nm, (c == ':') = false ∧ (c == ' ') = false
          ∧ (c == '\\') = false := fun c hc => nameChar_props (hname c hc)
      rw [show renderTag (.valueTag nm v) ++ renderTags ts
          = nm ++ (':' :: (renderValue v ++ renderTags ts)) from by
            simp [renderTag],
        tok_scan_seek nm hchars [] _ false false,
        tok_step_seek_colon]
      cases v with
      | bare s =>
          rw [tok_value_run_plain ([] ++ nm) (.bare s) (Or.inl ⟨s, rfl⟩) hv]
          cases ts with
          | nil =>
              simp only [renderTags]
              exact ⟨_, tok_end_val _ _ _ _⟩
          | cons t' ts'' =>
              simp only [renderTags]
              rw [tok_step_val_space_plain]
              obtain ⟨tl, htl⟩ := hp2cons t' ts'' rfl
              rw [htl]
              exact ⟨_, rfl⟩
      | quoted s =>
          rw [tok_value_run_plain ([] ++ nm) (.quoted s) (Or.inr ⟨s, rfl⟩) hv]
          cases ts with
          | nil =>
              simp only [renderTags]
              exact ⟨_, tok_end_val _ _ _ _⟩
          | cons t' ts'' =>
              simp only [renderTags]
              rw [tok_step_val_space_plain]
              obtain ⟨tl, htl⟩ := hp2cons t' ts'' rfl
              rw [htl]
              exact ⟨_, rfl⟩
      | ref id dis =>
          rw [tok_value_run_ref ([] ++ nm) id dis hv]
          cases ts with
          | nil =>
              simp only [renderTags]
              exact ⟨_, tok_end_refend _ _ _ _⟩
          | cons t' ts'' =>
              simp only [renderTags]
              rw [tok_step_refend_space]
              obtain ⟨tl, htl⟩ := hp2cons t' ts'' rfl
              rw [htl]
              exact ⟨_, rfl⟩

/-- The tokenizer machine completes without error on any rendered
well-formed tag list, emitting the pending text as the leading marker
token; and likewise on a well-formed tag followed by such a list. -/
theorem tokRunAux (n : Nat) : ∀ (ts : List TagDef), ts.length ≤ n →
    ts.all wfTag = true →
    (∀ cur, ∃ tl, tokAux cur none false false false false false
        (renderTags ts) = ⟨(String.mk cur, .marker) :: tl, none⟩)
    ∧ (∀ t, wfTag t = true →
        ∃ tl, tokAux [] none false false false false false
          (renderTag t ++ renderTags ts) = ⟨tl, none⟩) := by
  induction n with
  | zero =>
      intro ts hlen _
      have hts : ts = [] := List.eq_nil_of_length_eq_zero (Nat.le_zero.mp hlen)
      subst hts
      have hp1 : ∀ cur, ∃ tl, tokAux cur none false false false false false
          (renderTags []) = ⟨(String.mk cur, .marker) :: tl, none⟩ := by
        intro cur
        exact ⟨[], tok_end_seek cur false false⟩
      refine ⟨hp1, fun t hwt => tok_part2_core t [] hwt hp1 ?_⟩
      intro t' ts'' h
      cases h
  | succ n ih =>
      intro ts hlen hwf
      have hp1 : ∀ cur, ∃ tl, tokAux cur none false false false false false
          (renderTags ts) = ⟨(String.mk cur, .marker) :: tl, none⟩ := by
        cases ts with
        | nil =>
            intro cur
            exact ⟨[], tok_end_seek cur false false⟩
        | cons t ts' =>
            intro cur
            simp only [List.all_cons, Bool.and_eq_true] at hwf
            have hlen' : ts'.length ≤ n := by
              simp only [List.length_cons] at hlen
              omega
            obtain ⟨tl, htl⟩ := (ih ts' hlen' hwf.2).2 t hwf.1
            refine ⟨tl, ?_⟩
            simp only [renderTags]
            rw [tok_step_seek_space, htl]
            rfl
      refine ⟨hp1, fun t hwt => tok_part2_core t ts hwt hp1 ?_⟩
      intro t' ts'' hts
      subst hts
      simp only [List.all_cons, Bool.and_eq_true] at hwf
      have hlen' : ts''.length ≤ n := by
        simp only [List.length_cons] at hlen
        omega
      exact (ih ts'' hlen' hwf.2).2 t' hwf.1

/-- **C2 (confirmed).**  For every column-definition string conforming
to the header grammar `colName (SP tag (":" value)?)*` (names of
non-delimiter characters; values bare, quoted, or ref literals), the
Column Tokenizer runs to completion without raising and emits an
ordered token sequence whose first pair is `(colName, Marker)`. -/
theorem tokenizeColumn_first_marker (cd : ColDef) (h : wfCol cd = true) :
    ∃ tl, tokenizeColumn (String.mk (renderCol cd))
      = ⟨(String.mk cd.name, .marker) :: tl, none⟩ := by
  simp only [wfCol, Bool.and_eq_true, Bool.not_eq_true',
    List.all_eq_true] at h
  obtain ⟨⟨hne, hname⟩, htags⟩ := h
  have hchars : ∀ c ∈ cd.name, (c == ':') = false ∧ (c == ' ') = false
      ∧ (c == '\\') = false := fun c hc => nameChar_props (hname c hc)
  obtain ⟨tl, htl⟩ :=
    (tokRunAux cd.tags.length cd.tags le_rfl
      (List.all_eq_true.mpr htags)).1 ([] ++ cd.name)
  refine ⟨tl, ?_⟩
  calc tokenizeColumn (String.mk (renderCol cd))
      = tokAux [] none false false false false false
          (cd.name ++ renderTags cd.tags) := rfl
    _ = tokAux ([] ++ cd.name) none false false false false false
          (renderTags cd.tags) :=
        tok_scan_seek cd.name hchars [] (renderTags cd.tags) false false
    _ = ⟨(String.mk cd.name, .marker) :: tl, none⟩ := htl

/-- C2 witness: the spec's own example column definition tokenizes
completely, starting with `(ts, Marker)`. -/
theorem tokenizeColumn_first_marker_witness :
    tokenizeColumn "ts disKey:\"ui::timestamp\" tz:\"Los_Angeles\""
      = ⟨[("ts", .marker), ("disKey", .str "\"ui::timestamp\""),
          ("tz", .str "\"Los_Angeles\"")], none⟩ := by
  obtain ⟨tl, h⟩ := tokenizeColumn_first_marker
    ⟨"ts".data,
     [.valueTag "disKey".data (.quoted "ui::timestamp".data),
      .valueTag "tz".data (.quoted "Los_Angeles".data)]⟩ (by decide)
  decide

/-- **C10 (amended).**  The tokenizer's post-colon lookahead reads past
the end of the input exactly when an unescaped `:` is reached in
tag-seeking mode as the last character: every string of non-delimiter
characters followed by a final `:` makes tokenization raise
`IndexError` with no tokens emitted.  A final unescaped `:` reached in
*value* position does not raise (see the counterexample), so the claim's
"every column-definition string whose last character is an unescaped
`:`" is too broad. -/
theorem tokenizeColumn_colon_at_end (name : List Char)
    (h : ∀ c ∈ name, (c == ':') = false ∧ (c == ' ') = false
      ∧ (c == '\\') = false) :
    tokenizeColumn (String.mk (name ++ [':'])) = ⟨[], some .indexError⟩ := by
  show tokAux [] none false false false false false (name ++ [':']) = _
  rw [tok_scan_seek name h [] [':'] false false, tok_step_seek_colon]
  exact tok_end_jc _ _ _ _

/-- C10 witness: tokenizing `a:` raises the out-of-bounds access. -/
theorem tokenizeColumn_colon_at_end_witness :
    tokenizeColumn "a:" = ⟨[], some .indexError⟩ := by
  have h := tokenizeColumn_colon_at_end ['a'] (by decide)
  rw [show ("a:" : String) = String.mk (['a'] ++ [':']) from by decide]
  exact h

/-- C10 counterexample: `a:b:` ends with an unescaped `:` (the string
contains no backslash at all), yet tokenization raises nothing and
returns the token `("a", "b:")` — the final colon is reached in value
position, where no lookahead happens. -/
theorem tokenizeColumn_value_colon_counterexample :
    tokenizeColumn "a:b:" = ⟨[("a", .str "b:")], none⟩
    ∧ "a:b:".data = ['a', ':', 'b', ':'] := by
  constructor <;> decide

/-- The scan loop of `_split_columns`: quote-aware splitting of the
header line at unquoted commas.  `esc` is the pending-escape flag (a
backslash copies itself and the next character); an unescaped `"`
toggles `inQ`; a comma outside quotes is a split point; the final
segment is always emitted. -/
def splitColsAux (cur : List Char) (inQ esc : Bool) :
    List Char → List (List Char)
  | [] => [cur]
  | c :: rest =>
      if esc then splitColsAux (cur ++ [c]) inQ false rest
      else if c == '\\' then splitColsAux (cur ++ [c]) inQ true rest
      else if c == '"' then splitColsAux (cur ++ [c]) (!inQ) false rest
      else if c == ',' && !inQ then cur :: splitColsAux [] inQ false rest
      else splitColsAux (cur ++ [c]) inQ false rest

/-- `_split_columns(s)`. -/
def splitColumns (s : String) : List String :=
  (splitColsAux [] false false s.data).map String.mk

/-- The token-processing loop of `_parse_zinc_header` for one column:
marker values are stored directly, other raw values are normalized;
the first error aborts. -/
def processToks : List (String × RawVal) → ColInfo → Except StageErr ColInfo
  | [], info => Except.ok info
  | (k, .marker) :: rest, info => processToks rest (updateAssoc info k .marker)
  | (k, .str v) :: rest, info =>
      match normalizeTagValue v with
      | .ok tv => processToks rest (updateAssoc info k tv)
      | .error e => Except.error e

/-- One column of `_parse_zinc_header`: pull the first token (an
exception raised before the first yield propagates out of `next`),
assert it is a marker, store the remaining tokens (the tokenizer's own
exception, if any, surfaces after the tokens it yielded), then run the
numeric-tag pass. -/
def parseOneColumn (col : String) : Except StageErr (String × ColInfo) :=
  let tr := tokenizeColumn col
  match tr.toks with
  | [] => Except.error (tr.err.getD .assertionError)
  | (colname, v) :: restToks =>
      if v = .marker then
        match processToks restToks [] with
        | .error e => Except.error e
        | .ok info =>
            match tr.err with
            | some e => Except.error e
            | none =>
                match applyNumericTags info with
                | .ok info' => Except.ok (colname, info')
                | .error e => Except.error e
      else Except.error .assertionError

/-- `_parse_zinc_header(header)`: every column of the split header in
order; a repeated column name overwrites its entry in place. -/
def parseZincHeader (header : String) :
    Except StageErr (List (String × ColInfo)) :=
  (splitColumns header).foldlM
    (fun acc col => do
      let (colname, info) ← parseOneColumn col
      pure (updateAssoc acc colname info))
    []

/-- Remove one trailing carriage return, as the `\r?\n` pattern
consumes it together with the newline. -/
def dropTrailingCR (l : List Char) : List Char :=
  match l.getLast? with
  | some '\r' => l.dropLast
  | _ => l

/-- Split at the leftmost `\r?\n` match: the segment before it and the
text after it, or `none` when the text has no newline. -/
def splitFirstNLAux (cur : List Char) :
    List Char → Option (List Char × List Char)
  | [] => none
  | c :: rest =>
      if c == '\n' then some (dropTrailingCR cur, rest)
      else splitFirstNLAux (cur ++ [c]) rest

/-- `re.split(r"\r?\n", s, maxsplit=2)`. -/
def splitNewlines2 (s : String) : List String :=
  match splitFirstNLAux [] s.data with
  | none => [s]
  | some (seg1, rest1) =>
      match splitFirstNLAux [] rest1 with
      | none => [String.mk seg1, String.mk rest1]
      | some (seg2, rest2) =>
          [String.mk seg1, String.mk seg2, String.mk rest2]

/-- Split a text into lines at every `\r?\n`. -/
def splitLinesAux (cur : List Char) : List Char → List (List Char)
  | [] => [cur]
  | c :: rest =>
      if c == '\n' then dropTrailingCR cur :: splitLinesAux [] rest
      else splitLinesAux (cur ++ [c]) rest

/-- Model of the external delimited-row reader
(`pd.read_csv(..., header=None, na_values='N')`, an external
collaborator): comma-split rows, the literal `N` and the empty field
read as null, blank lines skipped, an empty text raising
`EmptyDataError` and ragged rows a parse error.  The reader's dtype
inference is not modelled: every cell is kept as raw text, which is the
interface the coercion engine's decision table is specified against. -/
def readCsv (body : String) :
    Except StageErr (List (List (Option String))) :=
  let lines := (splitLinesAux [] body.data).filter (fun l => !l.isEmpty)
  match lines with
  | [] => Except.error .emptyDataError
  | l0 :: _ =>
      let w := (splitCharsOn ',' l0).length
      let rows := lines.map (fun l =>
        (splitCharsOn ',' l).map (fun cell =>
          if cell = ['N'] ∨ cell = [] then none else some (String.mk cell)))
      if rows.all (fun r => r.length = w) then Except.ok rows
      else Except.error .valueError

/-- A pandas column label: the positional integer labels produced by
`header=None`, or a string label after renaming. -/
inductive ColLabel where
  | num (n : Nat) : ColLabel
  | name (s : String) : ColLabel
  deriving DecidableEq, Repr

/-- The display-name rule of the renaming loop in `zinc_to_frame`:
`v[ID_COLTAG][1]` — the display half of a ref, the character at index
1 of a plain string (an `IndexError` when shorter), a `TypeError` on
an unsubscriptable value — and the raw column name when no `id` tag
exists. -/
def displayName (colname : String) (info : ColInfo) :
    Except StageErr String :=
  match lookupTag info "id" with
  | none => Except.ok colname
  | some (.ref _ dis) => Except.ok dis
  | some (.str s) =>
      match s.data.get? 1 with
      | some c => Except.ok (String.mk [c])
      | none => Except.error .indexError
  | some _ => Except.error .typeError

/-- The renaming pass: data column `i > 0` gets its display name;
column 0 and columns beyond the header keep their integer labels. -/
def renameLabels (columnInfo : List (String × ColInfo)) (w : Nat) :
    Except StageErr (List ColLabel) :=
  (List.range w).mapM (fun i =>
    if i = 0 then Except.ok (ColLabel.num 0)
    else
      match columnInfo.get? i with
      | some (k, v) => (displayName k v).map ColLabel.name
      | none => Except.ok (ColLabel.num i))

/-- Positions of a label among the frame's columns. -/
def labelPositions (labels : List ColLabel) (lbl : ColLabel) : List Nat :=
  (List.range labels.length).filter (fun i => labels.get? i == some lbl)

/-- One step of the per-column sanitize loop of `zinc_to_frame`, for
the `i`-th header column: fetch `data.columns[i]` (an `IndexError`
past the CSV width), fetch the column by that label, coerce it, and
store it back.  A duplicated label makes the label-based fetch return
a sub-frame on which the coercion's string operations fail; that
failure mode is modelled as a `ValueError`. -/
def sanitizeAt (labels : List ColLabel) (info : ColInfo) (i : Nat)
    (cols : List TypedColumn) : Except StageErr (List TypedColumn) :=
  match labels.get? i with
  | none => Except.error .indexError
  | some lbl =>
      match labelPositions labels lbl with
      | [p] =>
          match cols.get? p with
          | some (.strs cells) =>
              match sanitizeZincSeries info cells with
              | .ok tc => Except.ok (cols.set p tc)
              | .error e => Except.error e
          | some _ => Except.error .typeError
          | none => Except.error .indexError
      | _ => Except.error .valueError

/-- The sanitize loop over all header columns, skipping index 0. -/
def sanitizeAll (labels : List ColLabel) :
    List (Nat × ColInfo) → List TypedColumn →
    Except StageErr (List TypedColumn)
  | [], cols => Except.ok cols
  | (i, info) :: rest, cols =>
      if i = 0 then sanitizeAll labels rest cols
      else
        match sanitizeAt labels info i cols with
        | .ok cols' => sanitizeAll labels rest cols'
        | .error e => Except.error e

/-- `DEFAULT_TZ` from the source. -/
def DEFAULT_TZ : String := "Los_Angeles"

/-- The assembled frame: header metadata, the timestamp index (stripped
index text — the external timestamp parser is modelled as keeping its
input), and the labelled data columns after column 0 is dropped. -/
structure ZincFrame where
  columnInfo : List (String × ColInfo)
  index : Option (List (Option String))
  columns : List (ColLabel × TypedColumn)
  deriving DecidableEq, Repr

/-- `_set_datetime_index(data, column_info['ts'])`: take `tz` from the
`ts` column's metadata (default `Los_Angeles`), right-strip its
characters and then trailing whitespace from every value of column 0,
make that the index (the external timestamp parser is modelled as
keeping its input text), and drop column 0. -/
def setDatetimeIndex (tsInfo : ColInfo)
    (cols : List (ColLabel × TypedColumn)) :
    Except StageErr (List (Option String) × List (ColLabel × TypedColumn)) := do
  let tz ←
    match lookupTag tsInfo "tz" with
    | none => Except.ok DEFAULT_TZ
    | some (.str s) => Except.ok s
    | some _ => Except.error .typeError
  match (cols.find? (fun p => p.1 == ColLabel.num 0)).map (·.2) with
  | none => Except.error (.keyError "0")
  | some (TypedColumn.strs cells) =>
      Except.ok
        (cells.map (Option.map (fun s => rstripWhitespace (rstripChars s tz))),
          cols.filter (fun p => !(p.1 == ColLabel.num 0)))
  | some _ => Except.error .typeError

/-- The body of `zinc_to_frame` after the segment check: parse the
header; with no data section produce a metadata-only frame; otherwise
read the rows, rename the data columns, coerce each header column, and
build the timestamp index from column 0. -/
def zincFrameBody (header : String) (body? : Option String) :
    Except StageErr ZincFrame := do
  let columnInfo ← parseZincHeader header
  match body? with
  | none => Except.ok ⟨columnInfo, none, []⟩
  | some body => do
      let rows ← readCsv body
      let cols := rows.transpose
      let labels ← renameLabels columnInfo cols.length
      let enumInfos := (List.range columnInfo.length).zip (columnInfo.map (·.2))
      let cols' ← sanitizeAll labels enumInfos (cols.map .strs)
      match lookupTag columnInfo "ts" with
      | none => Except.error (.keyError "ts")
      | some tsInfo => do
          let (idx, dataCols) ← setDatetimeIndex tsInfo (labels.zip cols')
          Except.ok ⟨columnInfo, some idx, dataCols⟩

/-- The error type of the whole-payload parse: the `Malformed input`
`ZincParseException` of the segment check, or any error of a later
stage. -/
inductive ZErr where
  | malformedInput : ZErr
  | stage (e : StageErr) : ZErr
  deriving DecidableEq, Repr

/-- `zinc_to_frame(zinc)`: split off the version line and header line
(`MalformedInput` when fewer than two segments exist), then run the
header/body pipeline. -/
def zincToFrame (zinc : String) : Except ZErr ZincFrame :=
  let splits := splitNewlines2 zinc
  if h : splits.length < 2 then Except.error .malformedInput
  else
    (zincFrameBody (splits.get ⟨1, by omega⟩)
      (if h3 : splits.length = 3 then some (splits.get ⟨2, by omega⟩)
       else none)).mapError ZErr.stage

theorem splitFirstNLAux_none_iff (l : List Char) :
    ∀ cur, splitFirstNLAux cur l = none ↔ '\n' ∉ l := by
  induction l with
  | nil => intro cur; simp [splitFirstNLAux]
  | cons c rest ih =>
      intro cur
      by_cases hc : c = '\n'
      · subst hc
        simp [splitFirstNLAux]
      · have hbeq : (c == '\n') = false := beq_eq_false_iff_ne.mpr hc
        simp only [splitFirstNLAux, hbeq, Bool.false_eq_true, if_false,
          List.mem_cons]
        rw [ih (cur ++ [c])]
        constructor
        · intro h hmem
          rcases hmem with h1 | h1
          · exact hc h1.symm
          · exact h h1
        · intro h h1
          exact h (Or.inr h1)

/-- **C8 (confirmed).**  The whole-payload parse fails with
`MalformedInput` exactly when the input has fewer than two
newline-delimited segments — equivalently, contains no newline; the
guard returns before any header tokenization is reached, and no later
stage of the pipeline can produce the `MalformedInput` error, so every
input with at least two segments is free of it. -/
theorem zincToFrame_malformed_iff (zinc : String) :
    (zincToFrame zinc = .error .malformedInput
      ↔ (splitNewlines2 zinc).length < 2)
    ∧ ((splitNewlines2 zinc).length < 2 ↔ '\n' ∉ zinc.data) := by
  constructor
  · by_cases h : (splitNewlines2 zinc).length < 2
    · simp [zincToFrame, h]
    · simp only [zincToFrame, h, dite_false]
      cases hX : zincFrameBody
          ((splitNewlines2 zinc).get ⟨1, by omega⟩)
          (if h3 : (splitNewlines2 zinc).length = 3 then
            some ((splitNewlines2 zinc).get ⟨2, by omega⟩)
          else none) with
      | ok a => simp [Except.mapError, hX, h]
      | error e => simp [Except.mapError, hX, h]
  · cases hs : splitFirstNLAux [] zinc.data with
    | none =>
        have hmem : '\n' ∉ zinc.data := (splitFirstNLAux_none_iff _ []).mp hs
        simp [splitNewlines2, hs, hmem]
    | some p =>
        obtain ⟨seg, rest⟩ := p
        have hmem : '\n' ∈ zinc.data := by
          by_contra hn
          rw [← splitFirstNLAux_none_iff zinc.data []] at hn
          rw [hn] at hs
          cases hs
        cases hs2 : splitFirstNLAux [] rest with
        | none => simp [splitNewlines2, hs, hs2, hmem]
        | some q =>
            obtain ⟨seg2, rest2⟩ := q
            simp [splitNewlines2, hs, hs2, hmem]

/-- Model of the Python object semantics behind the `ZincDataFrame`
and `ZincSeries` container classes.  The class statement
`column_info = OrderedDict()` runs once at class-creation time and
allocates a single class-level dict; a heap maps dict addresses to
contents, with address 0 reserved for that class-level dict. -/
structure PyHeap where
  dicts : List ColInfo
  deriving DecidableEq, Repr

/-- The address of the class attribute `column_info`, allocated when
the class body is executed. -/
def classColumnInfoAddr : Nat := 0

/-- The heap after the class statements ran: one empty class-level
`OrderedDict`. -/
def initialHeap : PyHeap := ⟨[[]]⟩

/-- A `ZincDataFrame`/`ZincSeries` instance, as far as the
`column_info` attribute is concerned: the instance attribute slot,
present only when `__init__` assigned it. -/
structure ZDFObj where
  instColumnInfo : Option Nat
  deriving DecidableEq, Repr

/-- `ZincDataFrame(...)` / `ZincSeries(...)`: when a `column_info`
kwarg is passed, `__init__` assigns the instance attribute (a freshly
allocated dict holding the given contents); otherwise no instance
attribute is created and the slot stays empty. -/
def mkZincContainer (h : PyHeap) (kwarg : Option ColInfo) :
    ZDFObj × PyHeap :=
  match kwarg with
  | none => (⟨none⟩, h)
  | some info => (⟨some h.dicts.length⟩, ⟨h.dicts ++ [info]⟩)

/-- Python attribute lookup for `obj.column_info`: the instance
attribute when present, else the class attribute. -/
def columnInfoAddr (o : ZDFObj) : Nat :=
  o.instColumnInfo.getD classColumnInfoAddr

/-- Read `obj.column_info`. -/
def readColumnInfo (h : PyHeap) (o : ZDFObj) : Option ColInfo :=
  h.dicts.get? (columnInfoAddr o)

/-- `obj.column_info[k] = v`: mutate the dict the attribute resolves
to, in place. -/
def writeColumnInfoKey (h : PyHeap) (o : ZDFObj) (k : String)
    (v : TagValue) : PyHeap :=
  match h.dicts.get? (columnInfoAddr o) with
  | none => h
  | some d => ⟨h.dicts.set (columnInfoAddr o) (updateAssoc d k v)⟩

/-- **C9 (code bug).**  Two containers constructed without a
`column_info` argument do *not* own independent metadata maps: both
resolve `column_info` to the single class-level `OrderedDict`, so
before any mutation the second instance reads the empty dict, and
after a key is written through the first instance the second instance
observes the mutation — contradicting the claim that mutating one
instance's metadata leaves every other instance's unchanged. -/
theorem zincContainer_shared_class_dict :
    readColumnInfo (mkZincContainer initialHeap none).2
        (mkZincContainer (mkZincContainer initialHeap none).2 none).1
      = some []
    ∧ readColumnInfo
        (writeColumnInfoKey
          (mkZincContainer (mkZincContainer initialHeap none).2 none).2
          (mkZincContainer initialHeap none).1 "site" .marker)
        (mkZincContainer (mkZincContainer initialHeap none).2 none).1
      = some [("site", .marker)] := by
  constructor <;> rfl

end Pyzinc
